import Mathlib

/-!
Verification development for the sample-mt5 repository.

The Python source is shallowly embedded: floats are modelled as rationals,
`datetime` instants exactly as integer UTC microseconds since the Unix epoch
(all instants in the source are UTC-normalized and `datetime` carries
microsecond resolution), dictionaries as insertion-ordered association
lists, and the filesystem mailbox as an association list from file names to
file contents.  Fallible code returns `Option`/`Except`.
-/

namespace MT5

/-- Characters stripped by Python `str.strip()` (the ASCII whitespace set;
exotic Unicode whitespace is outside the model). -/
def isPySpace (c : Char) : Bool :=
  c = ' ' ∨ c = '\t' ∨ c = '\n' ∨ c = '\r' ∨ c = '\x0b' ∨ c = '\x0c'

/-- `str.strip()` on a character list: drop leading and trailing whitespace. -/
def pyStripL (l : List Char) : List Char :=
  ((l.dropWhile isPySpace).reverse.dropWhile isPySpace).reverse

/-- Python `str.strip()`. -/
def pyStrip (s : String) : String :=
  String.mk (pyStripL s.data)

/-- Python `str.lower()` (ASCII case folding; the source only compares
against the ASCII literal "true"). -/
def pyLower (s : String) : String :=
  String.mk (s.data.map Char.toLower)

/-- Python `str.isdigit()` restricted to ASCII digits: nonempty and all
digits. -/
def isPyDigitStr (s : String) : Bool :=
  !s.data.isEmpty && s.data.all Char.isDigit

/-- Python `str.startswith` (character-based, like Python slicing). -/
def pyStartsWith (s pre : String) : Bool :=
  pre.data.isPrefixOf s.data

/-- Python slicing `s[n:]` (character-based). -/
def pyDrop (s : String) (n : Nat) : String :=
  String.mk (s.data.drop n)

/-! ## chart_service.py -/

/-- `format_timeframe_label` from chart_service.py: translate a timeframe
code such as "M5" or "H1" into its Japanese label. -/
def format_timeframe_label (tf : String) : String :=
  if pyStartsWith tf "M" ∧ isPyDigitStr (pyDrop tf 1) then pyDrop tf 1 ++ "分足"
  else if pyStartsWith tf "H" ∧ isPyDigitStr (pyDrop tf 1) then pyDrop tf 1 ++ "時間足"
  else if tf = "D1" then "日足"
  else if tf = "W1" then "週足"
  else if pyStartsWith tf "MN" ∧ isPyDigitStr (pyDrop tf 2) then pyDrop tf 2 ++ "ヶ月足"
  else tf ++ "足"

/-- `is_golden_cross` from chart_service.py:
`prev_short <= prev_long and latest_short > latest_long`. -/
def is_golden_cross (prev_short prev_long latest_short latest_long : ℚ) : Bool :=
  prev_short ≤ prev_long ∧ latest_short > latest_long

/-- `is_death_cross` from chart_service.py:
`prev_short >= prev_long and latest_short < latest_long`. -/
def is_death_cross (prev_short prev_long latest_short latest_long : ℚ) : Bool :=
  prev_short ≥ prev_long ∧ latest_short < latest_long

/-- `is_price_crash` from chart_service.py: `False` when `min_drop <= 0`,
else `(prev_close - latest_close) >= min_drop`. -/
def is_price_crash (prev_close latest_close min_drop : ℚ) : Bool :=
  if min_drop ≤ 0 then false
  else (prev_close - latest_close) ≥ min_drop

/-- `is_price_surge` from chart_service.py: `False` when `min_rise <= 0`,
else `(latest_close - prev_close) >= min_rise`. -/
def is_price_surge (prev_close latest_close min_rise : ℚ) : Bool :=
  if min_rise ≤ 0 then false
  else (latest_close - prev_close) ≥ min_rise

/-! ## moving_average_detection.py -/

/-- One row of the moving-average CSV (`Row` in chart_service.py):
`(time, close, ma_short, ma_middle, ma_long)`.  A `datetime` instant is
modelled exactly as UTC microseconds since the Unix epoch (an integer). -/
structure Row where
  time : ℤ
  close : ℚ
  ma_short : ℚ
  ma_middle : ℚ
  ma_long : ℚ
  deriving DecidableEq, Repr

/-- The `last_notified` module-level dictionary: a map from the composite
dedup key `(symbol, timeframe, kind)` to the last notified bar time. -/
abbrev DedupTable := (String × String × String) → Option ℤ

/-- Dictionary assignment on the dedup table. -/
def tableSet (tbl : DedupTable) (key : String × String × String) (t : ℤ) : DedupTable :=
  fun k => if k = key then some t else tbl k

/-- Decimal rendering of a rational with two fraction digits, approximating
the Python format specifier used for the surge/crash amounts (round half to
even on the scaled value). -/
def formatTwoDec (q : ℚ) : String :=
  let scaled := q * 100
  let fl : ℤ := ⌊scaled⌋
  let fr := scaled - fl
  let r : ℤ :=
    if fr > 1 / 2 then fl + 1
    else if fr < 1 / 2 then fl
    else if fl % 2 = 0 then fl else fl + 1
  let a := r.natAbs
  (if r < 0 then "-" else "") ++ toString (a / 100) ++ "." ++
    (if a % 100 < 10 then "0" else "") ++ toString (a % 100)

/-- One detection block of `detect_symbol_cross_events`: if the dedup entry
for `key` differs from the latest bar time, record the time and append the
event description, else suppress. -/
def notifyEvent (key : String × String × String) (event_time : ℤ) (desc : String)
    (st : List String × DedupTable) : List String × DedupTable :=
  if st.2 key ≠ some event_time then (st.1 ++ [desc], tableSet st.2 key event_time)
  else st

/-- Run the detection blocks in program order over the events/table state. -/
def runEvents (t : ℤ) : List ((String × String × String) × Bool × String) →
    List String × DedupTable → List String × DedupTable
  | [], st => st
  | e :: rest, st => runEvents t rest (if e.2.1 then notifyEvent e.1 t e.2.2 st else st)

/-- The four detection blocks of `detect_symbol_cross_events`, in source
order (death, golden, surge, crash): dedup key, fired condition, and event
description.  A `none` threshold disables the surge/crash block
(`surge_rise_threshold is not None and ...`). -/
def eventEntries (symbol timeframe : String) (sthr cthr : Option ℚ)
    (prev latest : Row) : List ((String × String × String) × Bool × String) :=
  [((symbol, timeframe, "death"),
    is_death_cross prev.ma_short prev.ma_long latest.ma_short latest.ma_long,
    "- " ++ symbol ++ "が" ++ format_timeframe_label timeframe ++ "でデッドクロス"),
   ((symbol, timeframe, "golden"),
    is_golden_cross prev.ma_short prev.ma_long latest.ma_short latest.ma_long,
    "- " ++ symbol ++ "が" ++ format_timeframe_label timeframe ++ "でゴールデンクロス"),
   ((symbol, timeframe, "surge"),
    (match sthr with
     | some thr => is_price_surge prev.close latest.close thr
     | none => false),
    "- " ++ symbol ++ "が" ++ format_timeframe_label timeframe ++ "で" ++
      formatTwoDec (latest.close - prev.close) ++ "ドル上昇 (" ++
      formatTwoDec prev.close ++ "→" ++ formatTwoDec latest.close ++ ")"),
   ((symbol, timeframe, "crash"),
    (match cthr with
     | some thr => is_price_crash prev.close latest.close thr
     | none => false),
    "- " ++ symbol ++ "が" ++ format_timeframe_label timeframe ++ "で" ++
      formatTwoDec (prev.close - latest.close) ++ "ドル下落 (" ++
      formatTwoDec prev.close ++ "→" ++ formatTwoDec latest.close ++ ")")]

/-- The detection core of `detect_symbol_cross_events` (scripts/
moving_average_detection.py): with fewer than two bars nothing happens;
otherwise the four detection blocks run over `rows[-2]` and `rows[-1]`.
The bridge fetch, logging and the RSI side computation have no effect on
the returned events or the dedup table and are not modelled. -/
def detect_symbol_cross_events (symbol timeframe : String)
    (surge_rise_threshold crash_drop_threshold : Option ℚ)
    (rows : List Row) (last_notified : DedupTable) : List String × DedupTable :=
  if rows.length < 2 then ([], last_notified)
  else
    match rows[rows.length - 2]?, rows[rows.length - 1]? with
    | some prev, some latest =>
        runEvents latest.time
          (eventEntries symbol timeframe surge_rise_threshold crash_drop_threshold
            prev latest)
          ([], last_notified)
    | _, _ => ([], last_notified)

/-! ## key=value codec and bridge response handling (_mt5_service.py) -/

/-- Universal-newline normalization performed by Python text-mode file
reading: `\r\n` and bare `\r` both become `\n`. -/
def normNewlines : List Char → List Char
  | [] => []
  | [c] => if c = '\r' then ['\n'] else [c]
  | c :: c2 :: rest =>
    if c = '\r' then
      if c2 = '\n' then '\n' :: normNewlines rest
      else '\n' :: normNewlines (c2 :: rest)
    else c :: normNewlines (c2 :: rest)

/-- Split a character stream into lines at newline characters (the final
line needs no terminator; a terminated final line contributes a trailing
empty line, which the decoder skips). -/
def splitOnNl : List Char → List (List Char)
  | [] => [[]]
  | c :: rest =>
    if c = '\n' then [] :: splitOnNl rest
    else
      match splitOnNl rest with
      | [] => [[c]]
      | l :: ls => (c :: l) :: ls

/-- Python `line.split("=", 1)`: characters before the first `=`, and the
remainder after it. -/
def splitFirstEq : List Char → List Char × List Char
  | [] => ([], [])
  | c :: r =>
    if c = '=' then ([], r)
    else (c :: (splitFirstEq r).1, (splitFirstEq r).2)

/-- Python dict assignment `out[k] = v` on an insertion-ordered association
list: overwrite in place if the key exists, else append. -/
def dictInsert (d : List (String × String)) (k v : String) : List (String × String) :=
  if d.any (fun p => p.1 = k) then d.map (fun p => if p.1 = k then (k, v) else p)
  else d ++ [(k, v)]

/-- One loop iteration of `_read_kv_file`: strip the line, skip it when
empty or without `=`, else split on the first `=` and store the stripped
key and value. -/
def readKvLine (out : List (String × String)) (line : List Char) :
    List (String × String) :=
  let l := pyStripL line
  if l.isEmpty ∨ ¬ l.contains '=' then out
  else dictInsert out (String.mk (pyStripL (splitFirstEq l).1))
    (String.mk (pyStripL (splitFirstEq l).2))

/-- `_read_kv_file` from _mt5_service.py (file contents passed as a
string): decode key=value lines into an insertion-ordered mapping. -/
def read_kv (text : String) : List (String × String) :=
  (splitOnNl (normNewlines text.data)).foldl readKvLine []

/-- The character stream written by `_write_kv_file`: one `key=value` line
per mapping entry, in order, each terminated by a bare newline. -/
def write_kv_chars : List (String × String) → List Char
  | [] => []
  | p :: rest => p.1.data ++ '=' :: (p.2.data ++ '\n' :: write_kv_chars rest)

/-- `_write_kv_file` from _mt5_service.py, as the produced file content. -/
def write_kv (kv : List (String × String)) : String :=
  String.mk (write_kv_chars kv)

/-- Cleanliness condition on a key or value under which the key=value line
format is transparent: strip-invariant and free of `=`, `\n` and `\r`. -/
def kvClean (s : String) : Prop :=
  pyStripL s.data = s.data ∧ '=' ∉ s.data ∧ '\n' ∉ s.data ∧ '\r' ∉ s.data

instance (s : String) : Decidable (kvClean s) := by
  unfold kvClean
  infer_instance

/-- The shared directory, as a finite map from file name to content. -/
abbrev FileSys := List (String × String)

/-- Association-list lookup (first match), used both for the mailbox
directory and for Python `dict.get`. -/
def alLookup (d : List (String × String)) (k : String) : Option String :=
  match d with
  | [] => none
  | p :: rest => if p.1 = k then some p.2 else alLookup rest k

/-- Python `resp.get(k, dflt)`. -/
def dictGet (d : List (String × String)) (k dflt : String) : String :=
  (alLookup d k).getD dflt

/-- File deletion. -/
def fsRemove (fs : FileSys) (nm : String) : FileSys :=
  fs.filter (fun p => p.1 ≠ nm)

/-- The found-response arm of `_wait_resp`: when the response file
`<resp prefix><id>.txt` exists, decode it with the codec and delete it.
`none` is the still-absent case (the Python loop then sleeps and retries
until `TimeoutError`; timing is not modelled). -/
def wait_resp (fs : FileSys) (respPre cmd_id : String) :
    Option (List (String × String) × FileSys) :=
  match alLookup fs (respPre ++ cmd_id ++ ".txt") with
  | some content => some (read_kv content, fsRemove fs (respPre ++ cmd_id ++ ".txt"))
  | none => none

/-- The `ok` check performed by every bridge caller
(`if resp.get("ok", "false").lower() != "true": raise RuntimeError(...)`),
as in `send_copy_moving_average`. -/
def check_bridge_ok (resp : List (String × String)) :
    Except String (List (String × String)) :=
  if pyLower (dictGet resp "ok" "false") ≠ "true" then
    Except.error (dictGet resp "error" "unknown")
  else Except.ok resp

/-! ## Python float() and MT5 time parsing -/

/-- Numeric value of an ASCII digit character. -/
def digitVal (c : Char) : Nat :=
  c.toNat - 48

/-- Value of a most-significant-first decimal digit string. -/
def digitsVal (cs : List Char) : Nat :=
  cs.foldl (fun a c => 10 * a + digitVal c) 0

/-- A nonempty all-digit string, or failure. -/
def parseDigits (cs : List Char) : Option Nat :=
  if cs.isEmpty ∨ ¬ cs.all Char.isDigit then none
  else some (digitsVal cs)

/-- Strip one optional leading sign, returning the sign factor. -/
def splitSign (cs : List Char) : ℤ × List Char :=
  match cs with
  | c :: r => if c = '+' then (1, r) else if c = '-' then (-1, r) else (1, cs)
  | [] => (1, cs)

/-- Split at the first exponent marker `e`/`E`, if any. -/
def splitExpChar : List Char → List Char × Option (List Char)
  | [] => ([], none)
  | c :: r =>
    if c = 'e' ∨ c = 'E' then ([], some r)
    else ((c :: (splitExpChar r).1), (splitExpChar r).2)

/-- Split at the first decimal point, if any. -/
def splitDotChar : List Char → List Char × Option (List Char)
  | [] => ([], none)
  | c :: r =>
    if c = '.' then ([], some r)
    else ((c :: (splitDotChar r).1), (splitDotChar r).2)

/-- Mantissa of a Python float literal (`digits`, `digits.`, `.digits` or
`digits.digits`) as a scaled integer: the pair `(n, k)` denotes `n / 10^k`. -/
def parseMantParts (cs : List Char) : Option (ℤ × ℕ) :=
  match splitDotChar cs with
  | (ip, none) => (parseDigits ip).map (fun n => ((n : ℤ), 0))
  | (ip, some fp) =>
    if (ip.isEmpty ∧ fp.isEmpty) ∨ ¬ ip.all Char.isDigit ∨ ¬ fp.all Char.isDigit then
      none
    else some (((digitsVal ip * 10 ^ fp.length + digitsVal fp : ℕ) : ℤ), fp.length)

/-- Exponent part of a Python float literal: optional sign plus digits. -/
def parseExpPart (cs : List Char) : Option Int :=
  match cs with
  | '+' :: r => (parseDigits r).map (fun n => (n : ℤ))
  | '-' :: r => (parseDigits r).map (fun n => -(n : ℤ))
  | r => (parseDigits r).map (fun n => (n : ℤ))

/-- Python `float(s)` on finite decimal literals, in exact scaled-integer
form: `some (n, k, e)` denotes the value `n / 10^k * 10^e`.  Optional
surrounding whitespace and sign, decimal mantissa, optional exponent.  The
`inf`/`nan` words and digit-group underscores are outside the model (no
call site feeds them in this repository's data path). -/
def pyFloatParts (s : String) : Option (ℤ × ℕ × ℤ) :=
  let cs := pyStripL s.data
  let sc := splitSign cs
  match splitExpChar sc.2 with
  | (mant, none) => (parseMantParts mant).map (fun p => (sc.1 * p.1, p.2, 0))
  | (mant, some ex) =>
    match parseMantParts mant, parseExpPart ex with
    | some p, some e => some (sc.1 * p.1, p.2, e)
    | _, _ => none

/-- The rational value denoted by a scaled-integer float literal. -/
def partsToRat (p : ℤ × ℕ × ℤ) : ℚ :=
  (p.1 : ℚ) / (10 : ℚ) ^ p.2.1 * (10 : ℚ) ^ p.2.2

/-- Python `float(s)`, as an exact rational. -/
def pyFloat (s : String) : Option ℚ :=
  (pyFloatParts s).map partsToRat

/-- Python `int(float)` applied to the value `n / 10^k * 10^e`: truncation
toward zero, computed in the integers. -/
def truncOfParts (n : ℤ) (k : ℕ) (e : ℤ) : ℤ :=
  if 0 ≤ e then (n * 10 ^ e.toNat).tdiv (10 ^ k)
  else n.tdiv (10 ^ (k + (-e).toNat))

/-- Proleptic Gregorian leap-year rule. -/
def isLeapYear (y : Nat) : Bool :=
  (y % 4 = 0 ∧ y % 100 ≠ 0) ∨ y % 400 = 0

/-- Days in a month of the proleptic Gregorian calendar. -/
def daysInMonth (y m : Nat) : Nat :=
  if m = 2 then (if isLeapYear y then 29 else 28)
  else if m = 4 ∨ m = 6 ∨ m = 9 ∨ m = 11 then 30
  else 31

/-- Days from the Unix epoch to the civil date y-m-d (valid for y ≥ 1,
where every division below has nonnegative operands). -/
def daysFromCivil (y m d : Int) : Int :=
  let y2 := if m ≤ 2 then y - 1 else y
  let era := (if 0 ≤ y2 then y2 else y2 - 399) / 400
  let yoe := y2 - era * 400
  let mp := (m + 9) % 12
  let doy := (153 * mp + 2) / 5 + d - 1
  let doe := yoe * 365 + yoe / 4 - yoe / 100 + doy
  era * 146097 + doe - 719468

/-- Greedy one-or-two digit field of `strptime`, mirroring the regex
alternations (two digits first), with the rest of the pattern checked via
`afterOk`. -/
def takeNum (okTwo okOne : Nat → Bool) (afterOk : List Char → Bool) :
    List Char → Option (Nat × List Char)
  | c1 :: c2 :: rest =>
    if c1.isDigit ∧ c2.isDigit ∧ okTwo (10 * digitVal c1 + digitVal c2) ∧ afterOk rest then
      some (10 * digitVal c1 + digitVal c2, rest)
    else if c1.isDigit ∧ okOne (digitVal c1) ∧ afterOk (c2 :: rest) then
      some (digitVal c1, c2 :: rest)
    else none
  | [c1] =>
    if c1.isDigit ∧ okOne (digitVal c1) ∧ afterOk [] then some (digitVal c1, [])
    else none
  | [] => none

/-- Lookahead for a literal delimiter. -/
def headIs (c : Char) : List Char → Bool
  | c2 :: _ => c2 = c
  | [] => false

/-- After the seconds field without fraction: end of input. -/
def secondsEnd : List Char → Bool
  | [] => true
  | _ :: _ => false

/-- After the seconds field with fraction: a dot and one to six digits. -/
def secondsFrac : List Char → Bool
  | '.' :: ds => ¬ ds.isEmpty ∧ ds.length ≤ 6 ∧ ds.all Char.isDigit
  | _ => false

/-- `datetime.strptime(s, "%Y.%m.%d %H:%M:%S")` (and, with `withFrac`, the
`".%f"` variant), yielding UTC epoch microseconds after
`replace(tzinfo=utc)`.  Field ranges follow the strptime regexes; the
datetime constructor then rejects day overflow for the month, year 0 and
seconds of 60/61. -/
def parseStamp (withFrac : Bool) (cs : List Char) : Option ℤ :=
  match cs with
  | y1 :: y2 :: y3 :: y4 :: '.' :: rest1 =>
    if y1.isDigit ∧ y2.isDigit ∧ y3.isDigit ∧ y4.isDigit then
      let y := 1000 * digitVal y1 + 100 * digitVal y2 + 10 * digitVal y3 + digitVal y4
      match takeNum (fun n => 1 ≤ n ∧ n ≤ 12) (fun n => 1 ≤ n) (headIs '.') rest1 with
      | none => none
      | some (mo, rest2) =>
        match rest2 with
        | '.' :: rest3 =>
          match takeNum (fun n => 1 ≤ n ∧ n ≤ 31) (fun n => 1 ≤ n) (headIs ' ') rest3 with
          | none => none
          | some (dy, rest4) =>
            match rest4 with
            | ' ' :: rest5 =>
              match takeNum (fun n => n ≤ 23) (fun _ => true) (headIs ':') rest5 with
              | none => none
              | some (hh, rest6) =>
                match rest6 with
                | ':' :: rest7 =>
                  match takeNum (fun n => n ≤ 59) (fun _ => true) (headIs ':') rest7 with
                  | none => none
                  | some (mi, rest8) =>
                    match rest8 with
                    | ':' :: rest9 =>
                      match takeNum (fun n => n ≤ 61) (fun _ => true)
                          (if withFrac then secondsFrac else secondsEnd) rest9 with
                      | none => none
                      | some (ss, rest10) =>
                        if y = 0 ∨ dy > daysInMonth y mo ∨ ss > 59 then none
                        else
                          let base : ℤ :=
                            daysFromCivil y mo dy * 86400 +
                              (hh : ℤ) * 3600 + (mi : ℤ) * 60 + (ss : ℤ)
                          match rest10 with
                          | '.' :: ds =>
                            some (base * 1000000 +
                              (digitsVal ds : ℤ) * 10 ^ (6 - ds.length))
                          | _ => some (base * 1000000)
                    | _ => none
                | _ => none
            | _ => none
        | _ => none
    else none
  | _ => none

/-- `_parse_mt5_time` from _mt5_service.py (and the identical static method
in mt5_service.py): strip, try the epoch path
`datetime.fromtimestamp(int(float(cell)), tz=utc)` (rejected outside the
datetime range, as the constructor would raise), then the textual stamp
without and finally with fractional seconds.  The result is the instant in
UTC epoch microseconds; `none` is a raised exception. -/
def parse_mt5_time (cell : String) : Option ℤ :=
  let s := pyStrip cell
  let epochTry : Option ℤ :=
    (pyFloatParts s).bind fun p =>
      let i := truncOfParts p.1 p.2.1 p.2.2
      if -62135596800 ≤ i ∧ i ≤ 253402300799 then some (i * 1000000) else none
  match epochTry with
  | some t => some t
  | none =>
    match parseStamp false s.data with
    | some t => some t
    | none => parseStamp true s.data

/-- Value of a most-significant-first decimal digit sequence. -/
def msdVal : List Nat → Nat
  | [] => 0
  | d :: ds => d * 10 ^ ds.length + msdVal ds

/-! ## CSV ingestion (load_moving_average_csv and _load_bars_full_csv) -/

/-- Index of the first occurrence of a name in a list. -/
def idxOfFirst (k : String) : List String → Option Nat
  | [] => none
  | h :: rest => if h = k then some 0 else (idxOfFirst k rest).map (· + 1)

/-- Index of the last occurrence of a column name in a header (the cell a
`csv.DictReader` row dictionary holds for that name). -/
def lastIdx (header : List String) (k : String) : Option Nat :=
  (idxOfFirst k header.reverse).map (fun i => header.length - 1 - i)

/-- `row[k]` on a `DictReader` row: `none` both when the column is absent
from the header (a `KeyError`) and when the row is too short for it (a
`None` cell, which every numeric or string use in the source turns into an
exception or a skip). -/
def dictRowGet (header cells : List String) (k : String) : Option String :=
  match lastIdx header k with
  | some i => cells[i]?
  | none => none

/-- `row.get(k, dflt)` where a missing column yields the default. -/
def dictRowGetD (header cells : List String) (k dflt : String) : String :=
  (dictRowGet header cells k).getD dflt

/-- One row of `load_moving_average_csv`: the `time`, `close`, `ma_short`,
`ma_middle` and `ma_long` columns are all required; any missing column or
failed parse raises, failing the whole ingestion. -/
def parseMaRow (header cells : List String) : Option Row := do
  let tCell ← dictRowGet header cells "time"
  let t ← parse_mt5_time tCell
  let close ← (dictRowGet header cells "close").bind pyFloat
  let ms ← (dictRowGet header cells "ma_short").bind pyFloat
  let mm ← (dictRowGet header cells "ma_middle").bind pyFloat
  let ml ← (dictRowGet header cells "ma_long").bind pyFloat
  pure ⟨t, close, ms, mm, ml⟩

/-- `load_moving_average_csv` from _mt5_service.py, over an already-split
CSV body (header names and rows of cells): every row must parse, else the
whole ingestion fails. -/
def load_moving_average_csv (header : List String) :
    List (List String) → Except String (List Row)
  | [] => Except.ok []
  | cells :: rest =>
    match parseMaRow header cells with
    | none => Except.error "CsvParseError"
    | some r =>
      match load_moving_average_csv header rest with
      | Except.ok rs => Except.ok (r :: rs)
      | Except.error e => Except.error e

/-- One record of `_load_bars_full_csv`: `time` is parsed (required), the
numeric columns are optional, and leftover columns are kept verbatim. -/
structure FullBar where
  time : ℤ
  openPrice : Option ℚ
  high : Option ℚ
  low : Option ℚ
  close : Option ℚ
  moving_average_short : Option ℚ
  moving_average_middle : Option ℚ
  moving_average_long : Option ℚ
  rsi : Option ℚ
  tick_volume : Option ℤ
  spread : Option ℤ
  real_volume : Option ℤ
  extras : List (String × String)
  deriving DecidableEq, Repr

/-- Optional float column of `_load_bars_full_csv`: absent or empty leaves
the field unset; a present, nonempty, unparsable cell raises (outer
`none`). -/
def parseOptFloat (header cells : List String) (k : String) : Option (Option ℚ) :=
  match dictRowGet header cells k with
  | none => some none
  | some v => if v = "" then some none else (pyFloat v).map some

/-- Optional integer column of `_load_bars_full_csv` (`int(float(v))`). -/
def parseOptInt (header cells : List String) (k : String) : Option (Option ℤ) :=
  match dictRowGet header cells k with
  | none => some none
  | some v =>
    if v = "" then some none
    else (pyFloatParts v).map (fun p => some (truncOfParts p.1 p.2.1 p.2.2))

/-- Whether a numeric column ended up in the record dictionary (present and
nonempty). -/
def isSetKey (header cells : List String) (k : String) : Bool :=
  match dictRowGet header cells k with
  | none => false
  | some v => v ≠ ""

/-- The float columns recognized by `_load_bars_full_csv`, in source order. -/
def fullFloatKeys : List String :=
  ["open", "high", "low", "close", "moving_average_short",
   "moving_average_middle", "moving_average_long", "rsi"]

/-- The integer columns recognized by `_load_bars_full_csv`. -/
def fullIntKeys : List String :=
  ["tick_volume", "spread", "real_volume"]

/-- Header names with duplicates removed, keeping first occurrences (the
key order of a `DictReader` row dictionary). -/
def firstOccurAux (seen : List String) : List String → List String
  | [] => []
  | h :: rest =>
    if h ∈ seen then firstOccurAux seen rest
    else h :: firstOccurAux (h :: seen) rest

/-- The catch-all loop of `_load_bars_full_csv`: columns not already in the
record and not `time`, kept as verbatim strings (an empty numeric cell
lands here too). -/
def extrasOf (header cells : List String) : List (String × String) :=
  (firstOccurAux [] header).filterMap fun k =>
    if k = "time" ∨ ((k ∈ fullFloatKeys ++ fullIntKeys) ∧ isSetKey header cells k) then
      none
    else
      match dictRowGet header cells k with
      | some v => some (k, v)
      | none => none

/-- One row of `_load_bars_full_csv`: `row.get("time", "")` must parse;
numeric columns are optional. -/
def parseFullRow (header cells : List String) : Option FullBar := do
  let t ← parse_mt5_time (dictRowGetD header cells "time" "")
  let o ← parseOptFloat header cells "open"
  let hi ← parseOptFloat header cells "high"
  let lo ← parseOptFloat header cells "low"
  let c ← parseOptFloat header cells "close"
  let ms ← parseOptFloat header cells "moving_average_short"
  let mm ← parseOptFloat header cells "moving_average_middle"
  let ml ← parseOptFloat header cells "moving_average_long"
  let r ← parseOptFloat header cells "rsi"
  let tv ← parseOptInt header cells "tick_volume"
  let sp ← parseOptInt header cells "spread"
  let rv ← parseOptInt header cells "real_volume"
  pure ⟨t, o, hi, lo, c, ms, mm, ml, r, tv, sp, rv, extrasOf header cells⟩

/-- `_load_bars_full_csv` from mt5_service.py, over an already-split CSV
body. -/
def _load_bars_full_csv (header : List String) :
    List (List String) → Except String (List FullBar)
  | [] => Except.ok []
  | cells :: rest =>
    match parseFullRow header cells with
    | none => Except.error "CsvParseError"
    | some r =>
      match _load_bars_full_csv header rest with
      | Except.ok rs => Except.ok (r :: rs)
      | Except.error e => Except.error e

/-! ## compute_rsi (chart_service.py) -/

/-- The RSI value computed from smoothed averages
(`100` when the average loss is zero). -/
def rsiValue (avg_gain avg_loss : ℚ) : ℚ :=
  if avg_loss = 0 then 100 else 100 - 100 / (1 + avg_gain / avg_loss)

/-- The Wilder smoothing loop of `compute_rsi`
(`for i in range(period + 1, n)`). -/
def wilderSmooth (p avg_gain avg_loss : ℚ) : List (ℚ × ℚ) → List (Option ℚ)
  | [] => []
  | gl :: rest =>
    some (rsiValue ((avg_gain * (p - 1) + gl.1) / p) ((avg_loss * (p - 1) + gl.2) / p)) ::
      wilderSmooth p ((avg_gain * (p - 1) + gl.1) / p) ((avg_loss * (p - 1) + gl.2) / p)
        rest

/-- The `gains` array of `compute_rsi`: zero at index 0, positive deltas
after. -/
def gainsOf (closes : List ℚ) : List ℚ :=
  match closes with
  | [] => []
  | _ :: rest =>
    0 :: List.zipWith (fun a b => if b - a ≥ 0 then b - a else 0) closes rest

/-- The `losses` array of `compute_rsi`: zero at index 0, negated negative
deltas after. -/
def lossesOf (closes : List ℚ) : List ℚ :=
  match closes with
  | [] => []
  | _ :: rest =>
    0 :: List.zipWith (fun a b => if b - a ≥ 0 then 0 else -(b - a)) closes rest

/-- `compute_rsi` from chart_service.py: NaN (modelled as `none`) for the
first `period` entries, then the Wilder-smoothed RSI series. -/
def compute_rsi (closes : List ℚ) (period : ℤ) : List (Option ℚ) :=
  let n := closes.length
  if period ≤ 0 ∨ n = 0 then List.replicate n none
  else
    let p := period.toNat
    let gains := gainsOf closes
    let losses := lossesOf closes
    if n ≤ p then List.replicate n none
    else
      List.replicate p none ++
        some (rsiValue (((gains.drop 1).take p).sum / (p : ℚ))
            (((losses.drop 1).take p).sum / (p : ℚ))) ::
          wilderSmooth (p : ℚ) (((gains.drop 1).take p).sum / (p : ℚ))
            (((losses.drop 1).take p).sum / (p : ℚ))
            (List.zip (gains.drop (p + 1)) (losses.drop (p + 1)))

end MT5

namespace MT5

/-- Claim C1: `is_golden_cross` is true exactly when the prior short MA is at
or below the prior long MA (tie counts as not-yet-crossed) and the latest
short MA is strictly above the latest long MA; in particular
`is_golden_cross 10 12 13 12 = true` and `is_golden_cross 11 10 12 11 = false`. -/
theorem golden_cross_rule :
    (∀ prev_short prev_long latest_short latest_long : ℚ,
      is_golden_cross prev_short prev_long latest_short latest_long = true ↔
        (prev_short ≤ prev_long ∧ latest_short > latest_long)) ∧
    is_golden_cross 10 12 13 12 = true ∧
    is_golden_cross 11 10 12 11 = false := by
  refine ⟨fun a b c d => ?_, by decide, by decide⟩
  simp [is_golden_cross]

/-- Claim C2: `is_price_surge` holds iff the threshold is positive and the
rise reaches it; `is_price_crash` holds iff the threshold is positive and the
drop reaches it; any non-positive threshold disables both detectors. -/
theorem surge_crash_rule :
    (∀ prev_close latest_close threshold : ℚ,
      is_price_surge prev_close latest_close threshold = true ↔
        (0 < threshold ∧ latest_close - prev_close ≥ threshold)) ∧
    (∀ prev_close latest_close threshold : ℚ,
      is_price_crash prev_close latest_close threshold = true ↔
        (0 < threshold ∧ prev_close - latest_close ≥ threshold)) ∧
    (∀ prev_close latest_close threshold : ℚ, threshold ≤ 0 →
      is_price_surge prev_close latest_close threshold = false ∧
      is_price_crash prev_close latest_close threshold = false) := by
  refine ⟨fun a b t => ?_, fun a b t => ?_, fun a b t ht => ?_⟩
  · unfold is_price_surge
    split
    · simp_all
    · simp_all [lt_of_not_ge]
  · unfold is_price_crash
    split
    · simp_all
    · simp_all [lt_of_not_ge]
  · constructor
    · simp [is_price_surge, ht]
    · simp [is_price_crash, ht]

/-- Witness for claim C2 at a concrete disabled threshold. -/
theorem surge_crash_rule_witness :
    is_price_surge 100 200 0 = false ∧ is_price_crash 100 200 0 = false :=
  surge_crash_rule.2.2 100 200 0 (by decide)

/-- Claim C9: golden-cross detection with the short and long roles swapped is
exactly death-cross detection. -/
theorem cross_symmetry (prev_short prev_long latest_short latest_long : ℚ) :
    is_golden_cross prev_short prev_long latest_short latest_long =
      is_death_cross prev_long prev_short latest_long latest_short := by
  simp [is_golden_cross, is_death_cross]

theorem notifyEvent_snd_key (key : String × String × String) (t : ℤ) (d : String)
    (st : List String × DedupTable) : (notifyEvent key t d st).2 key = some t := by
  unfold notifyEvent
  split
  · simp [tableSet]
  · simp_all

theorem notifyEvent_snd_ne {k key : String × String × String} (hk : k ≠ key)
    (t : ℤ) (d : String) (st : List String × DedupTable) :
    (notifyEvent key t d st).2 k = st.2 k := by
  unfold notifyEvent
  split
  · simp [tableSet, hk]
  · rfl

theorem notifyEvent_mem {e : String} {st : List String × DedupTable}
    (he : e ∈ st.1) (key : String × String × String) (t : ℤ) (d : String) :
    e ∈ (notifyEvent key t d st).1 := by
  unfold notifyEvent
  split
  · exact List.mem_append_left _ he
  · exact he

theorem notifyEvent_of_recorded {key : String × String × String} {t : ℤ}
    {st : List String × DedupTable} (h : st.2 key = some t) (d : String) :
    notifyEvent key t d st = st := by
  unfold notifyEvent
  simp [h]

theorem notifyEvent_mem_new {key : String × String × String} {t : ℤ}
    {st : List String × DedupTable} (h : st.2 key ≠ some t) (d : String) :
    d ∈ (notifyEvent key t d st).1 := by
  unfold notifyEvent
  simp [h]

theorem runEvents_snd (t : ℤ) (L : List ((String × String × String) × Bool × String))
    (st : List String × DedupTable) (k : String × String × String) :
    (runEvents t L st).2 k =
      if ∃ e ∈ L, e.1 = k ∧ e.2.1 = true then some t else st.2 k := by
  induction L generalizing st with
  | nil => simp [runEvents]
  | cons e rest ih =>
    rcases e with ⟨key, fire, d⟩
    by_cases hf : fire = true
    · subst hf
      rw [runEvents, if_pos rfl, ih]
      by_cases hrest : ∃ e ∈ rest, e.1 = k ∧ e.2.1 = true
      · simp [hrest]
      · by_cases hkey : key = k
        · subst hkey
          simp [hrest, notifyEvent_snd_key]
        · simp [hrest, hkey, notifyEvent_snd_ne (Ne.symm hkey)]
    · have hf' : fire = false := by simpa using hf
      subst hf'
      rw [runEvents, if_neg (by simp), ih]
      exact if_congr (by simp) rfl rfl

theorem runEvents_of_all_recorded {t : ℤ}
    {L : List ((String × String × String) × Bool × String)}
    {st : List String × DedupTable}
    (h : ∀ e ∈ L, e.2.1 = true → st.2 e.1 = some t) :
    runEvents t L st = st := by
  induction L with
  | nil => rfl
  | cons e rest ih =>
    rw [runEvents]
    rcases e with ⟨key, fire, d⟩
    by_cases hf : fire = true
    · rw [if_pos hf, notifyEvent_of_recorded (h _ (List.mem_cons_self _ _) hf)]
      exact ih fun e he hf' => h e (List.mem_cons_of_mem _ he) hf'
    · rw [if_neg hf]
      exact ih fun e he hf' => h e (List.mem_cons_of_mem _ he) hf'

theorem runEvents_mem_base {e : String} {st : List String × DedupTable}
    (he : e ∈ st.1) (t : ℤ) (L : List ((String × String × String) × Bool × String)) :
    e ∈ (runEvents t L st).1 := by
  induction L generalizing st with
  | nil => exact he
  | cons hd rest ih =>
    rw [runEvents]
    split
    · exact ih (notifyEvent_mem he _ _ _)
    · exact ih he

theorem runEvents_emits {t : ℤ} {key : String × String × String} {d : String}
    {L : List ((String × String × String) × Bool × String)}
    {st : List String × DedupTable}
    (hnd : (L.map (fun e => e.1)).Nodup)
    (hmem : (key, true, d) ∈ L) (hrec : st.2 key ≠ some t) :
    d ∈ (runEvents t L st).1 := by
  induction L generalizing st with
  | nil => cases hmem
  | cons hd rest ih =>
    rw [runEvents]
    rcases List.mem_cons.1 hmem with heq | hmemr
    · rw [← heq]
      simp only [if_pos rfl]
      exact runEvents_mem_base (notifyEvent_mem_new hrec d) t rest
    · have hkmem : key ∈ rest.map (fun e => e.1) :=
        List.mem_map.2 ⟨(key, true, d), hmemr, rfl⟩
      have hne : key ≠ hd.1 := by
        intro h
        apply (List.nodup_cons.1 hnd).1
        show hd.1 ∈ rest.map (fun e => e.1)
        rw [← h]
        exact hkmem
      have hnd' := (List.nodup_cons.1 hnd).2
      split
      · exact ih hnd' hmemr (by rw [notifyEvent_snd_ne hne]; exact hrec)
      · exact ih hnd' hmemr hrec

theorem filterMap_congr_mem {α β : Type} {l : List α} {f g : α → Option β}
    (h : ∀ a ∈ l, f a = g a) : l.filterMap f = l.filterMap g := by
  induction l with
  | nil => rfl
  | cons a l ih =>
    rw [List.filterMap_cons, List.filterMap_cons, h a (List.mem_cons_self _ _),
      ih fun a ha => h a (List.mem_cons_of_mem _ ha)]

theorem runEvents_fst {t : ℤ} {L : List ((String × String × String) × Bool × String)}
    (st : List String × DedupTable)
    (hnd : (L.map (fun e => e.1)).Nodup) :
    (runEvents t L st).1 = st.1 ++ L.filterMap
      (fun e => if e.2.1 = true ∧ st.2 e.1 ≠ some t then some e.2.2 else none) := by
  induction L generalizing st with
  | nil => simp [runEvents]
  | cons hd rest ih =>
    rcases hd with ⟨key, fire, d⟩
    have hnotin : key ∉ rest.map (fun e => e.1) := by
      simpa using (List.nodup_cons.1 hnd).1
    have hnd' := (List.nodup_cons.1 hnd).2
    rw [runEvents, List.filterMap_cons]
    by_cases hf : fire = true
    · subst hf
      rw [if_pos rfl]
      by_cases hrec : st.2 key = some t
      · rw [notifyEvent_of_recorded hrec, ih st hnd']
        simp [hrec]
      · have hst' : notifyEvent key t d st = (st.1 ++ [d], tableSet st.2 key t) := by
          unfold notifyEvent
          rw [if_pos hrec]
        rw [hst', ih _ hnd']
        have hcongr : rest.filterMap
            (fun e => if e.2.1 = true ∧ (st.1 ++ [d], tableSet st.2 key t).2 e.1 ≠ some t
              then some e.2.2 else none) =
            rest.filterMap
              (fun e => if e.2.1 = true ∧ st.2 e.1 ≠ some t then some e.2.2 else none) := by
          refine filterMap_congr_mem fun e he => ?_
          have hne : e.1 ≠ key := by
            intro h
            exact hnotin (h ▸ List.mem_map.2 ⟨e, he, rfl⟩)
          simp only [tableSet, if_neg hne]
        rw [hcongr]
        simp [hrec]
    · have hf' : fire = false := by simpa using hf
      subst hf'
      rw [if_neg (by simp), ih st hnd']
      simp

theorem eventEntries_keys_nodup (symbol timeframe : String) (sthr cthr : Option ℚ)
    (prev latest : Row) :
    ((eventEntries symbol timeframe sthr cthr prev latest).map
      (fun e => e.1)).Nodup := by
  simp [eventEntries, List.nodup_cons]

/-- Claim C3: a second detection call over bars with an unchanged latest bar
time emits nothing and leaves the dedup table unchanged; and any detection
block that fires while its stored time differs from the latest bar time has
its description emitted and its dedup entry overwritten with that time. -/
theorem dedup_idempotent :
    (∀ (symbol timeframe : String) (sthr cthr : Option ℚ) (rows : List Row)
      (tbl : DedupTable),
      detect_symbol_cross_events symbol timeframe sthr cthr rows
        (detect_symbol_cross_events symbol timeframe sthr cthr rows tbl).2 =
      ([], (detect_symbol_cross_events symbol timeframe sthr cthr rows tbl).2)) ∧
    (∀ (symbol timeframe : String) (sthr cthr : Option ℚ) (rows : List Row)
      (tbl : DedupTable) (prev latest : Row) (k d : String),
      2 ≤ rows.length →
      rows[rows.length - 2]? = some prev →
      rows[rows.length - 1]? = some latest →
      ((symbol, timeframe, k), true, d) ∈ eventEntries symbol timeframe sthr cthr prev latest →
      tbl (symbol, timeframe, k) ≠ some latest.time →
      d ∈ (detect_symbol_cross_events symbol timeframe sthr cthr rows tbl).1 ∧
      (detect_symbol_cross_events symbol timeframe sthr cthr rows tbl).2
        (symbol, timeframe, k) = some latest.time) := by
  constructor
  · intro symbol timeframe sthr cthr rows tbl
    by_cases hlen : rows.length < 2
    · simp [detect_symbol_cross_events, hlen]
    · rcases h2 : rows[rows.length - 2]? with _ | prev
      · simp [detect_symbol_cross_events, hlen, h2]
      · rcases h1 : rows[rows.length - 1]? with _ | latest
        · simp [detect_symbol_cross_events, hlen, h2, h1]
        · simp only [detect_symbol_cross_events, hlen, if_false, h2, h1]
          set L := eventEntries symbol timeframe sthr cthr prev latest with hL
          set r := runEvents latest.time L ([], tbl) with hr
          have : runEvents latest.time L ([], r.2) = ([], r.2) := by
            refine runEvents_of_all_recorded fun e he hf => ?_
            show r.2 e.1 = some latest.time
            rw [hr, runEvents_snd]
            rw [if_pos ⟨e, he, rfl, hf⟩]
          exact this
  · intro symbol timeframe sthr cthr rows tbl prev latest k d hlen h2 h1 hmem hrec
    have hlt : ¬ rows.length < 2 := by omega
    simp only [detect_symbol_cross_events, hlt, if_false, h2, h1]
    constructor
    · exact runEvents_emits (eventEntries_keys_nodup _ _ _ _ _ _) hmem hrec
    · rw [runEvents_snd]
      rw [if_pos ⟨_, hmem, rfl, rfl⟩]

/-- Witness for claim C3: a golden cross on a concrete two-bar window is
emitted and recorded at the latest bar time. -/
theorem dedup_idempotent_witness :
    "- GOLDが15分足でゴールデンクロス" ∈
      (detect_symbol_cross_events "GOLD" "M15" (some 30) (some 30)
        [⟨0, 100, 1, 0, 2⟩, ⟨60, 140, 5, 0, 3⟩] (fun _ => none)).1 ∧
    (detect_symbol_cross_events "GOLD" "M15" (some 30) (some 30)
        [⟨0, 100, 1, 0, 2⟩, ⟨60, 140, 5, 0, 3⟩] (fun _ => none)).2
      ("GOLD", "M15", "golden") = some 60 :=
  dedup_idempotent.2 "GOLD" "M15" (some 30) (some 30)
    [⟨0, 100, 1, 0, 2⟩, ⟨60, 140, 5, 0, 3⟩] (fun _ => none)
    ⟨0, 100, 1, 0, 2⟩ ⟨60, 140, 5, 0, 3⟩ "golden" "- GOLDが15分足でゴールデンクロス"
    (by decide) rfl rfl
    (by refine List.mem_cons.2 (Or.inr (List.mem_cons.2 (Or.inl ?_))); rfl)
    (by simp)

/-- Claim C4: fewer than two bars yield no events and an unchanged table;
with at least two bars only the last two are consulted; the emitted list is
the concatenation of the four blocks' independent contributions (each block
depends only on its own condition and its own dedup entry); and a call never
emits more than four events. -/
theorem evaluation_contract :
    (∀ (symbol timeframe : String) (sthr cthr : Option ℚ) (rows : List Row)
      (tbl : DedupTable), rows.length < 2 →
      detect_symbol_cross_events symbol timeframe sthr cthr rows tbl = ([], tbl)) ∧
    (∀ (symbol timeframe : String) (sthr cthr : Option ℚ) (rows : List Row)
      (tbl : DedupTable) (prev latest : Row),
      2 ≤ rows.length →
      rows[rows.length - 2]? = some prev →
      rows[rows.length - 1]? = some latest →
      detect_symbol_cross_events symbol timeframe sthr cthr rows tbl =
        detect_symbol_cross_events symbol timeframe sthr cthr [prev, latest] tbl) ∧
    (∀ (symbol timeframe : String) (sthr cthr : Option ℚ) (rows : List Row)
      (tbl : DedupTable) (prev latest : Row),
      2 ≤ rows.length →
      rows[rows.length - 2]? = some prev →
      rows[rows.length - 1]? = some latest →
      (detect_symbol_cross_events symbol timeframe sthr cthr rows tbl).1 =
        (eventEntries symbol timeframe sthr cthr prev latest).filterMap
          (fun e => if e.2.1 = true ∧ tbl e.1 ≠ some latest.time
            then some e.2.2 else none)) ∧
    (∀ (symbol timeframe : String) (sthr cthr : Option ℚ) (rows : List Row)
      (tbl : DedupTable),
      (detect_symbol_cross_events symbol timeframe sthr cthr rows tbl).1.length ≤ 4) := by
  refine ⟨fun symbol timeframe sthr cthr rows tbl hlen => ?_,
    fun symbol timeframe sthr cthr rows tbl prev latest hlen h2 h1 => ?_,
    fun symbol timeframe sthr cthr rows tbl prev latest hlen h2 h1 => ?_,
    fun symbol timeframe sthr cthr rows tbl => ?_⟩
  · simp [detect_symbol_cross_events, hlen]
  · have hlt : ¬ rows.length < 2 := by omega
    simp [detect_symbol_cross_events, hlt, h2, h1]
  · have hlt : ¬ rows.length < 2 := by omega
    simp only [detect_symbol_cross_events, hlt, if_false, h2, h1]
    rw [runEvents_fst _ (eventEntries_keys_nodup _ _ _ _ _ _)]
    rfl
  · by_cases hlen : rows.length < 2
    · simp [detect_symbol_cross_events, hlen]
    · rcases h2 : rows[rows.length - 2]? with _ | prev
      · simp [detect_symbol_cross_events, hlen, h2]
      · rcases h1 : rows[rows.length - 1]? with _ | latest
        · simp [detect_symbol_cross_events, hlen, h2, h1]
        · simp only [detect_symbol_cross_events, hlen, if_false, h2, h1]
          rw [runEvents_fst _ (eventEntries_keys_nodup _ _ _ _ _ _)]
          simp only [List.nil_append]
          calc ((eventEntries symbol timeframe sthr cthr prev latest).filterMap _).length
              ≤ (eventEntries symbol timeframe sthr cthr prev latest).length :=
                List.length_filterMap_le _ _
            _ = 4 := rfl

theorem alLookup_fsRemove (fs : FileSys) (nm : String) :
    alLookup (fsRemove fs nm) nm = none := by
  induction fs with
  | nil => rfl
  | cons p rest ih =>
    unfold fsRemove at *
    rw [List.filter_cons]
    by_cases hp : p.1 = nm
    · rw [if_neg (by simp [hp])]
      exact ih
    · rw [if_pos (by simp [hp])]
      unfold alLookup
      rw [if_neg hp]
      exact ih

theorem strip_self_parts {l : List Char} (h : pyStripL l = l) :
    l.dropWhile isPySpace = l ∧ l.reverse.dropWhile isPySpace = l.reverse := by
  have hlen := congrArg List.length h
  unfold pyStripL at hlen
  have h1 : ((l.dropWhile isPySpace).reverse.dropWhile isPySpace).length ≤
      (l.dropWhile isPySpace).reverse.length :=
    List.Sublist.length_le (List.dropWhile_sublist _)
  have h2 : (l.dropWhile isPySpace).length ≤ l.length :=
    List.Sublist.length_le (List.dropWhile_sublist _)
  simp only [List.length_reverse] at hlen h1
  have hfront : l.dropWhile isPySpace = l :=
    List.Sublist.eq_of_length (List.dropWhile_sublist _) (by omega)
  refine ⟨hfront, ?_⟩
  have hback := h
  unfold pyStripL at hback
  rw [hfront] at hback
  have hback2 := congrArg List.reverse hback
  simpa using hback2

theorem dropWhile_isPySpace_append (k v : List Char)
    (hk : k.dropWhile isPySpace = k) :
    (k ++ '=' :: v).dropWhile isPySpace = k ++ '=' :: v := by
  cases k with
  | nil => simp [List.dropWhile_cons, isPySpace]
  | cons c k2 =>
    have hpc : isPySpace c = false := by
      by_cases hc : isPySpace c = true
      · rw [List.dropWhile_cons, if_pos hc] at hk
        have hlen := congrArg List.length hk
        have hle : (k2.dropWhile isPySpace).length ≤ k2.length :=
          List.Sublist.length_le (List.dropWhile_sublist _)
        simp at hlen
        omega
      · simpa using hc
    rw [List.cons_append, List.dropWhile_cons, if_neg (by simp [hpc])]

theorem pyStripL_kv_line (k v : List Char) (hk : pyStripL k = k)
    (hv : pyStripL v = v) : pyStripL (k ++ '=' :: v) = k ++ '=' :: v := by
  have hk1 := (strip_self_parts hk).1
  have hv2 := (strip_self_parts hv).2
  unfold pyStripL
  rw [dropWhile_isPySpace_append k v hk1,
    show (k ++ '=' :: v).reverse = v.reverse ++ '=' :: k.reverse by simp,
    dropWhile_isPySpace_append v.reverse k.reverse hv2]
  simp

theorem splitFirstEq_append (k v : List Char) (hk : '=' ∉ k) :
    splitFirstEq (k ++ '=' :: v) = (k, v) := by
  induction k with
  | nil => simp [splitFirstEq]
  | cons c k2 ih =>
    have hc : c ≠ '=' := fun e => hk (e ▸ List.mem_cons_self _ _)
    have ih2 := ih fun hm => hk (List.mem_cons_of_mem _ hm)
    simp only [List.cons_append, splitFirstEq]
    rw [if_neg hc]
    exact congrArg (fun q : List Char × List Char => (c :: q.1, q.2)) ih2

theorem dictInsert_not_mem {d : List (String × String)} {k : String}
    (h : k ∉ d.map Prod.fst) (v : String) :
    dictInsert d k v = d ++ [(k, v)] := by
  unfold dictInsert
  rw [if_neg]
  intro hcon
  rcases List.any_eq_true.1 hcon with ⟨p, hp, hpk⟩
  exact h (List.mem_map.2 ⟨p, hp, by simpa using hpk⟩)

theorem normNewlines_of_no_cr : ∀ {l : List Char}, '\r' ∉ l → normNewlines l = l
  | [], _ => rfl
  | [c], h => by
    have hc : c ≠ '\r' := fun e => (by simpa using h : ¬ '\r' = c) e.symm
    simp [normNewlines, hc]
  | c :: c2 :: rest, h => by
    have hc : c ≠ '\r' := fun e => h (e ▸ List.mem_cons_self _ _)
    have h2 : '\r' ∉ c2 :: rest := fun hm => h (List.mem_cons_of_mem _ hm)
    simp only [normNewlines]
    rw [if_neg hc, normNewlines_of_no_cr h2]

theorem splitOnNl_append (a rest : List Char) (h : '\n' ∉ a) :
    splitOnNl (a ++ '\n' :: rest) = a :: splitOnNl rest := by
  induction a with
  | nil => simp [splitOnNl]
  | cons c a2 ih =>
    have hc : c ≠ '\n' := fun e => h (e ▸ List.mem_cons_self _ _)
    have ih2 := ih fun hm => h (List.mem_cons_of_mem _ hm)
    simp only [List.cons_append, splitOnNl]
    rw [if_neg hc]
    have ih3 : splitOnNl (a2.append ('\n' :: rest)) = a2 :: splitOnNl rest := ih2
    rw [ih3]

theorem write_kv_chars_no_cr {m : List (String × String)}
    (h : ∀ p ∈ m, '\r' ∉ p.1.data ∧ '\r' ∉ p.2.data) :
    '\r' ∉ write_kv_chars m := by
  induction m with
  | nil => simp [write_kv_chars]
  | cons p rest ih =>
    have h1 := (h p (List.mem_cons_self _ _)).1
    have h2 := (h p (List.mem_cons_self _ _)).2
    have h3 := ih fun q hq => h q (List.mem_cons_of_mem _ hq)
    intro hmem
    simp only [write_kv_chars, List.mem_append, List.mem_cons] at hmem
    rcases hmem with hm | hm | hm | hm | hm
    · exact h1 hm
    · exact absurd hm (by decide)
    · exact h2 hm
    · exact absurd hm (by decide)
    · exact h3 hm

theorem splitOnNl_write {m : List (String × String)}
    (h : ∀ p ∈ m, '\n' ∉ p.1.data ∧ '\n' ∉ p.2.data) :
    splitOnNl (write_kv_chars m) =
      m.map (fun p : String × String => p.1.data ++ '=' :: p.2.data) ++ [[]] := by
  induction m with
  | nil => rfl
  | cons p rest ih =>
    have hp := h p (List.mem_cons_self _ _)
    have hnl : '\n' ∉ p.1.data ++ '=' :: p.2.data := by
      intro hm
      rcases List.mem_append.1 hm with h1 | h2
      · exact hp.1 h1
      · rcases List.mem_cons.1 h2 with he | h3
        · exact absurd he (by decide)
        · exact hp.2 h3
    have hassoc : write_kv_chars (p :: rest) =
        (p.1.data ++ '=' :: p.2.data) ++ '\n' :: write_kv_chars rest := by
      simp [write_kv_chars]
    rw [hassoc, splitOnNl_append _ _ hnl,
      ih fun q hq => h q (List.mem_cons_of_mem _ hq)]
    rfl

theorem fold_kv_lines (m : List (String × String)) :
    ∀ acc : List (String × String),
    (m.map Prod.fst).Nodup →
    (∀ p ∈ m, kvClean p.1 ∧ kvClean p.2) →
    (∀ km ∈ m.map Prod.fst, km ∉ acc.map Prod.fst) →
    ((m.map (fun p : String × String => p.1.data ++ '=' :: p.2.data)) ++ [[]]).foldl
        readKvLine acc = acc ++ m := by
  induction m with
  | nil =>
    intro acc _ _ _
    simp [readKvLine, pyStripL]
  | cons p rest ih =>
    intro acc hnd hclean hdisj
    have hcp := hclean p (List.mem_cons_self _ _)
    have hstrip := pyStripL_kv_line p.1.data p.2.data hcp.1.1 hcp.2.1
    have hcont : (p.1.data ++ '=' :: p.2.data).contains '=' = true := by
      simp
    have hline : readKvLine acc (p.1.data ++ '=' :: p.2.data) = acc ++ [p] := by
      unfold readKvLine
      rw [hstrip, if_neg (by simp [hcont]), splitFirstEq_append _ _ hcp.1.2.1]
      rw [show pyStripL p.1.data = p.1.data from hcp.1.1,
        show pyStripL p.2.data = p.2.data from hcp.2.1]
      rw [show String.mk p.1.data = p.1 from rfl, show String.mk p.2.data = p.2 from rfl]
      rw [dictInsert_not_mem (hdisj p.1 (by simp)) p.2]
    simp only [List.map_cons, List.cons_append, List.foldl_cons]
    rw [hline]
    have hnd2 : (rest.map Prod.fst).Nodup := by
      simp only [List.map_cons, List.nodup_cons] at hnd
      exact hnd.2
    have hp1notin : p.1 ∉ rest.map Prod.fst := by
      simp only [List.map_cons, List.nodup_cons] at hnd
      exact hnd.1
    have hdisj2 : ∀ km ∈ rest.map Prod.fst, km ∉ (acc ++ [p]).map Prod.fst := by
      intro km hkm
      simp only [List.map_append, List.mem_append]
      rintro (hin | hin)
      · exact hdisj km (List.mem_cons_of_mem _ hkm) hin
      · simp only [List.map_cons, List.map_nil, List.mem_cons,
          List.not_mem_nil, or_false] at hin
        exact hp1notin (hin ▸ hkm)
    rw [ih (acc ++ [p]) hnd2 (fun q hq => hclean q (List.mem_cons_of_mem _ hq)) hdisj2]
    simp

/-- Claim C5: when the response file exists, the bridge returns the decoded
mapping and deletes the file; the caller then accepts the response iff its
`ok` field lowercases to "true" (a missing `ok` key is rejected), failing
with the response's error field otherwise. -/
theorem bridge_response_handling (fs : FileSys) (respPre cmd_id content : String)
    (hfind : alLookup fs (respPre ++ cmd_id ++ ".txt") = some content) :
    wait_resp fs respPre cmd_id =
      some (read_kv content, fsRemove fs (respPre ++ cmd_id ++ ".txt")) ∧
    alLookup (fsRemove fs (respPre ++ cmd_id ++ ".txt"))
      (respPre ++ cmd_id ++ ".txt") = none ∧
    (pyLower (dictGet (read_kv content) "ok" "false") = "true" →
      check_bridge_ok (read_kv content) = Except.ok (read_kv content)) ∧
    (pyLower (dictGet (read_kv content) "ok" "false") ≠ "true" →
      check_bridge_ok (read_kv content) =
        Except.error (dictGet (read_kv content) "error" "unknown")) ∧
    (alLookup (read_kv content) "ok" = none →
      check_bridge_ok (read_kv content) =
        Except.error (dictGet (read_kv content) "error" "unknown")) := by
  refine ⟨?_, alLookup_fsRemove fs _, ?_, ?_, ?_⟩
  · unfold wait_resp
    rw [hfind]
  · intro h
    unfold check_bridge_ok
    rw [if_neg (by simp [h])]
  · intro h
    unfold check_bridge_ok
    rw [if_pos h]
  · intro h
    have hne : pyLower (dictGet (read_kv content) "ok" "false") ≠ "true" := by
      unfold dictGet
      rw [h]
      decide
    unfold check_bridge_ok
    rw [if_pos hne]

/-- Witness for claim C5: a concrete one-file mailbox round trip; the
response is decoded, consumed, and accepted. -/
theorem bridge_response_handling_witness :
    wait_resp [("mt5_resp_abc.txt", "ok=true\ndata_file=out.csv\n")]
        "mt5_resp_" "abc" =
      some ([("ok", "true"), ("data_file", "out.csv")], []) := by
  have h := (bridge_response_handling
    [("mt5_resp_abc.txt", "ok=true\ndata_file=out.csv\n")]
    "mt5_resp_" "abc" "ok=true\ndata_file=out.csv\n" rfl).1
  rw [h]
  rfl

/-- Counterexample for claim C6 as stated: the value " v" contains no `=`
and no newline, yet the round trip strips it to "v". -/
theorem kv_round_trip_counterexample :
    read_kv (write_kv [("k", " v")]) = [("k", "v")] ∧
    [("k", "v")] ≠ [("k", " v")] := by decide

/-- Claim C6 (amended): the round trip restores the mapping provided the
keys are pairwise distinct and every key and value is strip-invariant and
free of `=` and newline characters. -/
theorem kv_round_trip (m : List (String × String))
    (hnd : (m.map Prod.fst).Nodup)
    (hclean : ∀ p ∈ m, kvClean p.1 ∧ kvClean p.2) :
    read_kv (write_kv m) = m := by
  have hcr : '\r' ∉ write_kv_chars m :=
    write_kv_chars_no_cr fun p hp => ⟨(hclean p hp).1.2.2.2, (hclean p hp).2.2.2.2⟩
  unfold read_kv write_kv
  rw [show (String.mk (write_kv_chars m)).data = write_kv_chars m from rfl,
    normNewlines_of_no_cr hcr,
    splitOnNl_write fun p hp => ⟨(hclean p hp).1.2.2.1, (hclean p hp).2.2.2.1⟩,
    fold_kv_lines m [] hnd hclean (by simp)]
  rfl

/-- Witness for claim C6: a concrete clean mapping round-trips. -/
theorem kv_round_trip_witness :
    read_kv (write_kv [("ok", "true"), ("data_file", "out.csv")]) =
      [("ok", "true"), ("data_file", "out.csv")] :=
  kv_round_trip _ (by decide) (by decide)

/-- Witness for claim C4: the empty bar list yields no events, and on a
concrete two-bar window the emitted list is the four blocks' contributions. -/
theorem evaluation_contract_witness :
    detect_symbol_cross_events "GOLD" "M15" (some 30) (some 30) [] (fun _ => none) =
      ([], fun _ => none) ∧
    (detect_symbol_cross_events "GOLD" "M15" (some 30) (some 30)
        [⟨0, 100, 1, 0, 2⟩, ⟨60, 140, 5, 0, 3⟩] (fun _ => none)).1 =
      (eventEntries "GOLD" "M15" (some 30) (some 30)
          ⟨0, 100, 1, 0, 2⟩ ⟨60, 140, 5, 0, 3⟩).filterMap
        (fun e => if e.2.1 = true ∧ (fun _ => none : DedupTable) e.1 ≠ some (60 : ℤ)
          then some e.2.2 else none) :=
  ⟨evaluation_contract.1 "GOLD" "M15" (some 30) (some 30) [] (fun _ => none)
      (by decide),
    evaluation_contract.2.2.1 "GOLD" "M15" (some 30) (some 30)
      [⟨0, 100, 1, 0, 2⟩, ⟨60, 140, 5, 0, 3⟩] (fun _ => none)
      ⟨0, 100, 1, 0, 2⟩ ⟨60, 140, 5, 0, 3⟩ (by decide) rfl rfl⟩


theorem digitVal_digitChar {d : Nat} (h : d < 10) :
    digitVal (Nat.digitChar d) = d := by
  interval_cases d <;> decide

theorem isDigit_digitChar {d : Nat} (h : d < 10) :
    (Nat.digitChar d).isDigit = true := by
  interval_cases d <;> decide

theorem isPySpace_digitChar {d : Nat} (h : d < 10) :
    isPySpace (Nat.digitChar d) = false := by
  interval_cases d <;> decide

theorem digitsFold_map (ds : List Nat) (h : ∀ d ∈ ds, d < 10) :
    ∀ acc : Nat,
      (ds.map Nat.digitChar).foldl (fun a c => 10 * a + digitVal c) acc =
        acc * 10 ^ ds.length + msdVal ds := by
  induction ds with
  | nil =>
    intro acc
    simp [msdVal]
  | cons d ds ih =>
    intro acc
    simp only [List.map_cons, List.foldl_cons]
    rw [digitVal_digitChar (h d (List.mem_cons_self _ _)),
      ih (fun x hx => h x (List.mem_cons_of_mem _ hx)) (10 * acc + d)]
    simp only [msdVal, List.length_cons]
    ring

theorem digitsVal_map_digitChar (ds : List Nat) (h : ∀ d ∈ ds, d < 10) :
    digitsVal (ds.map Nat.digitChar) = msdVal ds := by
  unfold digitsVal
  rw [digitsFold_map ds h 0]
  simp

theorem pyStripL_map_digitChar (ds : List Nat) (h : ∀ d ∈ ds, d < 10) :
    pyStripL (ds.map Nat.digitChar) = ds.map Nat.digitChar := by
  unfold pyStripL
  have h1 : (ds.map Nat.digitChar).dropWhile isPySpace = ds.map Nat.digitChar := by
    cases ds with
    | nil => rfl
    | cons d rest =>
      simp only [List.map_cons, List.dropWhile_cons]
      rw [isPySpace_digitChar (h d (List.mem_cons_self _ _))]
      simp
  rw [h1]
  have h2 : (ds.map Nat.digitChar).reverse.dropWhile isPySpace =
      (ds.map Nat.digitChar).reverse := by
    rcases hrev : (ds.map Nat.digitChar).reverse with _ | ⟨c, r⟩
    · rfl
    · have hc : c ∈ ds.map Nat.digitChar := by
        rw [← List.mem_reverse, hrev]
        exact List.mem_cons_self _ _
      rcases List.mem_map.1 hc with ⟨d, hd, rfl⟩
      rw [List.dropWhile_cons, isPySpace_digitChar (h d hd)]
      simp
  rw [h2, List.reverse_reverse]

theorem splitExpChar_all_digits (l : List Char) (h : ∀ c ∈ l, c.isDigit = true) :
    splitExpChar l = (l, none) := by
  induction l with
  | nil => rfl
  | cons c r ih =>
    have hc := h c (List.mem_cons_self _ _)
    have hce : ¬ (c = 'e' ∨ c = 'E') := by
      rintro (rfl | rfl)
      · exact absurd hc (by decide)
      · exact absurd hc (by decide)
    simp only [splitExpChar]
    rw [if_neg hce, ih fun x hx => h x (List.mem_cons_of_mem _ hx)]

theorem splitDotChar_all_digits (l : List Char) (h : ∀ c ∈ l, c.isDigit = true) :
    splitDotChar l = (l, none) := by
  induction l with
  | nil => rfl
  | cons c r ih =>
    have hc := h c (List.mem_cons_self _ _)
    have hcd : ¬ c = '.' := by
      rintro rfl
      exact absurd hc (by decide)
    simp only [splitDotChar]
    rw [if_neg hcd, ih fun x hx => h x (List.mem_cons_of_mem _ hx)]

theorem parseDigits_all (l : List Char) (hne : l ≠ [])
    (h : ∀ c ∈ l, c.isDigit = true) : parseDigits l = some (digitsVal l) := by
  unfold parseDigits
  rw [if_neg]
  simp only [not_or]
  constructor
  · simpa using hne
  · simpa using fun c hc => h c hc

theorem pyFloatParts_digits (ds : List Nat) (hne : ds ≠ []) (h : ∀ d ∈ ds, d < 10) :
    pyFloatParts (String.mk (ds.map Nat.digitChar)) =
      some ((msdVal ds : ℤ), 0, 0) := by
  have hdigits : ∀ c ∈ ds.map Nat.digitChar, c.isDigit = true := by
    intro c hcm
    rcases List.mem_map.1 hcm with ⟨x, hx, rfl⟩
    exact isDigit_digitChar (h x hx)
  unfold pyFloatParts
  rw [show (String.mk (ds.map Nat.digitChar)).data = ds.map Nat.digitChar from rfl,
    pyStripL_map_digitChar ds h]
  cases ds with
  | nil => exact absurd rfl hne
  | cons d rest =>
    have hd := h d (List.mem_cons_self _ _)
    have hplus : ¬ Nat.digitChar d = '+' := fun e => by
      have hdd := isDigit_digitChar hd
      rw [e] at hdd
      exact absurd hdd (by decide)
    have hminus : ¬ Nat.digitChar d = '-' := fun e => by
      have hdd := isDigit_digitChar hd
      rw [e] at hdd
      exact absurd hdd (by decide)
    simp only [List.map_cons, splitSign]
    rw [if_neg hplus, if_neg hminus]
    have hall : ∀ c ∈ Nat.digitChar d :: rest.map Nat.digitChar, c.isDigit = true := by
      simpa using hdigits
    rw [splitExpChar_all_digits _ hall]
    have hmant : parseMantParts (Nat.digitChar d :: rest.map Nat.digitChar) =
        some ((digitsVal (Nat.digitChar d :: rest.map Nat.digitChar) : ℤ), 0) := by
      unfold parseMantParts
      rw [splitDotChar_all_digits _ hall]
      simp [parseDigits_all _ (by simp) hall]
    have hval : digitsVal (Nat.digitChar d :: rest.map Nat.digitChar) =
        msdVal (d :: rest) := by
      have := digitsVal_map_digitChar (d :: rest) h
      simpa using this
    simp [hmant, hval]

theorem parse_mt5_time_digits (ds : List Nat) (hne : ds ≠ [])
    (h : ∀ d ∈ ds, d < 10) (hbound : msdVal ds ≤ 253402300799) :
    parse_mt5_time (String.mk (ds.map Nat.digitChar)) =
      some ((msdVal ds : ℤ) * 1000000) := by
  have hstrip : pyStrip (String.mk (ds.map Nat.digitChar)) =
      String.mk (ds.map Nat.digitChar) := by
    unfold pyStrip
    rw [show (String.mk (ds.map Nat.digitChar)).data = ds.map Nat.digitChar from rfl,
      pyStripL_map_digitChar ds h]
  have htr : truncOfParts ((msdVal ds : ℤ)) 0 0 = (msdVal ds : ℤ) := by
    unfold truncOfParts
    rw [if_pos le_rfl]
    norm_num
  have hrange : -62135596800 ≤ ((msdVal ds : ℤ)) ∧
      ((msdVal ds : ℤ)) ≤ 253402300799 := by
    constructor
    · omega
    · exact_mod_cast hbound
  simp only [parse_mt5_time]
  rw [hstrip, pyFloatParts_digits ds hne h]
  have hstep : ((some ((msdVal ds : ℤ), 0, 0)).bind fun a =>
      if -62135596800 ≤ truncOfParts a.1 a.2.1 a.2.2 ∧
          truncOfParts a.1 a.2.1 a.2.2 ≤ 253402300799 then
        some (truncOfParts a.1 a.2.1 a.2.2 * 1000000)
      else none) = some ((msdVal ds : ℤ) * 1000000) := by
    show (if -62135596800 ≤ truncOfParts ((msdVal ds : ℤ)) 0 0 ∧
        truncOfParts ((msdVal ds : ℤ)) 0 0 ≤ 253402300799 then
      some (truncOfParts ((msdVal ds : ℤ)) 0 0 * 1000000) else none) =
      some ((msdVal ds : ℤ) * 1000000)
    rw [htr, if_pos hrange]
  rw [hstep]

/-- Claim C8: the time parser accepts a Unix epoch value (any decimal digit
string in the datetime range), the textual stamp `YYYY.MM.DD HH:MM:SS`, and
the same with fractional seconds, trying the epoch form first; in
particular "1700000000" and "2023.11.14 22:13:20" denote the same UTC
instant, a fractional epoch is truncated, and fractional seconds are kept
at microsecond resolution. -/
theorem time_cell_parsing :
    (∀ ds : List Nat, ds ≠ [] → (∀ d ∈ ds, d < 10) →
      msdVal ds ≤ 253402300799 →
      parse_mt5_time (String.mk (ds.map Nat.digitChar)) =
        some ((msdVal ds : ℤ) * 1000000)) ∧
    parse_mt5_time "1700000000" = some 1700000000000000 ∧
    parse_mt5_time "2023.11.14 22:13:20" = some 1700000000000000 ∧
    parse_mt5_time "1700000000.75" = some 1700000000000000 ∧
    parse_mt5_time "2023.11.14 22:13:20.5" = some 1700000000500000 :=
  ⟨parse_mt5_time_digits, by decide, by decide, by decide, by decide⟩

/-- Witness for claim C8: the epoch clause at the concrete digit string
"12". -/
theorem time_cell_parsing_witness :
    parse_mt5_time (String.mk ([1, 2].map Nat.digitChar)) = some 12000000 := by
  have h := time_cell_parsing.1 [1, 2] (by decide) (by decide) (by decide)
  norm_num [msdVal] at h
  exact h


/-- Counterexample for claim C7 as stated: in `_load_bars_full_csv` the
`close` column is optional — a CSV with no `close` column at all ingests
successfully (the field is simply left unset), instead of failing. -/
theorem csv_close_optional_counterexample :
    _load_bars_full_csv ["time"] [["1700000000"]] =
      Except.ok [⟨1700000000000000, none, none, none, none, none, none, none,
        none, none, none, none, []⟩] := by
  rfl

/-- Claim C7 (amended): `load_moving_average_csv` fails wholly with
`CsvParseError` whenever any row's required column (`time`, `close` or an
MA column) is missing or unparsable, and a successful load returns one bar
per row (no silent skipping); `_load_bars_full_csv` requires only `time` —
a missing or unparsable `time`, or a present, nonempty, unparsable numeric
cell, fails the whole ingestion, while a missing or empty optional column
(including `close`) is tolerated and left unset. -/
theorem csv_ingestion_atomicity :
    (∀ (header : List String) (rows : List (List String)) (cells : List String),
      cells ∈ rows → parseMaRow header cells = none →
      load_moving_average_csv header rows = Except.error "CsvParseError") ∧
    (∀ (header : List String) (rows : List (List String)) (bars : List Row),
      load_moving_average_csv header rows = Except.ok bars →
      bars.length = rows.length) ∧
    (∀ (header cells : List String),
      dictRowGet header cells "time" = none ∨
        dictRowGet header cells "close" = none →
      parseMaRow header cells = none) ∧
    (∀ (header : List String) (rows : List (List String)) (cells : List String),
      cells ∈ rows → parseFullRow header cells = none →
      _load_bars_full_csv header rows = Except.error "CsvParseError") ∧
    (∀ (header : List String) (rows : List (List String)) (bars : List FullBar),
      _load_bars_full_csv header rows = Except.ok bars →
      bars.length = rows.length) := by
  refine ⟨?_, ?_, ?_, ?_, ?_⟩
  · intro header rows
    induction rows with
    | nil => intro cells h; cases h
    | cons r rest ih =>
      intro cells hmem hbad
      rcases List.mem_cons.1 hmem with rfl | hmem2
      · simp [load_moving_average_csv, hbad]
      · rcases hr : parseMaRow header r with _ | row
        · simp [load_moving_average_csv, hr]
        · simp only [load_moving_average_csv, hr]
          rw [ih cells hmem2 hbad]
  · intro header rows
    induction rows with
    | nil =>
      intro bars h
      simp only [load_moving_average_csv] at h
      cases h
      rfl
    | cons r rest ih =>
      intro bars h
      simp only [load_moving_average_csv] at h
      rcases hr : parseMaRow header r with _ | row
      · rw [hr] at h; cases h
      · rw [hr] at h
        rcases hrest : load_moving_average_csv header rest with e | rs
        · rw [hrest] at h; cases h
        · rw [hrest] at h
          cases h
          simp [ih rs hrest]
  · intro header cells hdisj
    unfold parseMaRow
    rcases hdisj with hh | hh
    · simp [hh]
    · rcases ht : dictRowGet header cells "time" with _ | tc
      · simp [ht]
      · rcases hp : parse_mt5_time tc with _ | t
        · simp [ht, hp]
        · simp [ht, hp, hh]
  · intro header rows
    induction rows with
    | nil => intro cells h; cases h
    | cons r rest ih =>
      intro cells hmem hbad
      rcases List.mem_cons.1 hmem with rfl | hmem2
      · simp [_load_bars_full_csv, hbad]
      · rcases hr : parseFullRow header r with _ | row
        · simp [_load_bars_full_csv, hr]
        · simp only [_load_bars_full_csv, hr]
          rw [ih cells hmem2 hbad]
  · intro header rows
    induction rows with
    | nil =>
      intro bars h
      simp only [_load_bars_full_csv] at h
      cases h
      rfl
    | cons r rest ih =>
      intro bars h
      simp only [_load_bars_full_csv] at h
      rcases hr : parseFullRow header r with _ | row
      · rw [hr] at h; cases h
      · rw [hr] at h
        rcases hrest : _load_bars_full_csv header rest with e | rs
        · rw [hrest] at h; cases h
        · rw [hrest] at h
          cases h
          simp [ih rs hrest]

/-- Witness for claim C7: a CSV whose second row has an unparsable time
cell fails wholly. -/
theorem csv_ingestion_atomicity_witness :
    load_moving_average_csv ["time", "close", "ma_short", "ma_middle", "ma_long"]
      [["1700000000", "100.5", "1", "2", "3"], ["oops", "1", "1", "1", "1"]] =
      Except.error "CsvParseError" :=
  csv_ingestion_atomicity.1 ["time", "close", "ma_short", "ma_middle", "ma_long"]
    [["1700000000", "100.5", "1", "2", "3"], ["oops", "1", "1", "1", "1"]]
    ["oops", "1", "1", "1", "1"] (by decide) (by decide)

theorem wilderSmooth_length (p ag al : ℚ) (l : List (ℚ × ℚ)) :
    (wilderSmooth p ag al l).length = l.length := by
  induction l generalizing ag al with
  | nil => rfl
  | cons gl rest ih => simp [wilderSmooth, ih]

theorem wilderSmooth_isSome {p ag al : ℚ} {l : List (ℚ × ℚ)} :
    ∀ x ∈ wilderSmooth p ag al l, ∃ q : ℚ, x = some q := by
  induction l generalizing ag al with
  | nil =>
    intro x hx
    cases hx
  | cons gl rest ih =>
    intro x hx
    rcases List.mem_cons.1 hx with rfl | hx2
    · exact ⟨_, rfl⟩
    · exact ih _ hx2

theorem gainsOf_length (closes : List ℚ) :
    (gainsOf closes).length = closes.length := by
  cases closes with
  | nil => rfl
  | cons c rest =>
    simp [gainsOf, List.length_zipWith]

theorem lossesOf_length (closes : List ℚ) :
    (lossesOf closes).length = closes.length := by
  cases closes with
  | nil => rfl
  | cons c rest =>
    simp [lossesOf, List.length_zipWith]

/-- An indexed entry of an all-`some` list is `some`. -/
theorem entry_some_of_all {w : List (Option ℚ)}
    (hall : ∀ x ∈ w, ∃ q : ℚ, x = some q) {j : Nat} (hj : j < w.length) :
    ∃ q : ℚ, w[j]? = some (some q) := by
  rw [List.getElem?_eq_getElem hj]
  rcases hall _ (List.getElem_mem hj) with ⟨q, hq⟩
  exact ⟨q, by rw [hq]⟩

/-- Claim C10: `compute_rsi` returns one value per close; when the period
is non-positive or there are at most `period` closes every entry is NaN
(`none`); otherwise exactly the first `period` entries are NaN and every
entry from index `period` on is a defined number. -/
theorem rsi_shape :
    (∀ (closes : List ℚ) (period : ℤ),
      (compute_rsi closes period).length = closes.length) ∧
    (∀ (closes : List ℚ) (period : ℤ),
      (period ≤ 0 ∨ (closes.length : ℤ) ≤ period) →
      compute_rsi closes period = List.replicate closes.length none) ∧
    (∀ (closes : List ℚ) (period : ℤ), 0 < period →
      period < (closes.length : ℤ) →
      (∀ i : Nat, i < period.toNat →
        (compute_rsi closes period)[i]? = some none) ∧
      (∀ i : Nat, period.toNat ≤ i → i < closes.length →
        ∃ q : ℚ, (compute_rsi closes period)[i]? = some (some q))) := by
  refine ⟨?_, ?_, ?_⟩
  · intro closes period
    by_cases h1 : period ≤ 0 ∨ closes = []
    · simp [compute_rsi, List.length_eq_zero, h1]
    · by_cases h2 : closes.length ≤ period.toNat
      · simp [compute_rsi, List.length_eq_zero, h1, h2]
      · simp only [compute_rsi, List.length_eq_zero, h1, h2, if_false]
        simp only [List.length_append, List.length_replicate, List.length_cons,
          wilderSmooth_length, List.length_zip, List.length_drop,
          gainsOf_length, lossesOf_length, inf_idem]
        omega
  · intro closes period h
    by_cases h1 : period ≤ 0 ∨ closes = []
    · simp [compute_rsi, List.length_eq_zero, h1]
    · have h1b := h1
      push_neg at h1b
      have h2 : closes.length ≤ period.toNat := by
        rcases h with hle | hlen
        · exact absurd hle (by omega)
        · omega
      simp [compute_rsi, List.length_eq_zero, h1, h2]
  · intro closes period hp hlt
    have h1 : ¬ (period ≤ 0 ∨ closes = []) := by
      push_neg
      constructor
      · omega
      · intro he
        rw [he] at hlt
        simp at hlt
        omega
    have h2 : ¬ closes.length ≤ period.toNat := by omega
    constructor
    · intro i hi
      simp only [compute_rsi, List.length_eq_zero, h1, h2, if_false]
      rw [List.getElem?_append, if_pos (by simpa using hi)]
      simp [List.getElem?_replicate, hi]
    · intro i hge hilt
      simp only [compute_rsi, List.length_eq_zero, h1, h2, if_false]
      rw [List.getElem?_append_right (by simpa using hge)]
      simp only [List.length_replicate]
      rcases hj : i - period.toNat with _ | j
      · exact ⟨_, by rw [List.getElem?_cons_zero]⟩
      · simp only [List.getElem?_cons_succ]
        refine entry_some_of_all wilderSmooth_isSome ?_
        rw [wilderSmooth_length]
        simp only [List.length_zip, List.length_drop, gainsOf_length,
          lossesOf_length, inf_idem]
        omega

/-- Witness for claim C10 on a concrete three-close series with period 1. -/
theorem rsi_shape_witness :
    (∀ i : Nat, i < (1 : ℤ).toNat →
      (compute_rsi [1, 2, 3] 1)[i]? = some none) ∧
    (∀ i : Nat, (1 : ℤ).toNat ≤ i → i < ([1, 2, 3] : List ℚ).length →
      ∃ q : ℚ, (compute_rsi [1, 2, 3] 1)[i]? = some (some q)) :=
  rsi_shape.2.2 [1, 2, 3] 1 (by decide) (by decide)

end MT5
